/-
Verification of the currency-aware expense-manager core (`src/expense.py`).

Shallow embedding conventions:
* Python `float` amounts and rates are modelled as exact rationals `ℚ`.
* Python exceptions are modelled with `Except PyErr`; `ValueError` raised by
  `CurrencyConverter.convert` becomes `PyErr.unsupportedCurrency`, and a
  `KeyError` on the trend dictionary becomes `PyErr.keyError`.
* The rate dictionary `CurrencyConverter._rates` is modelled as a partial map
  from the `Currency` enumeration to rationals (`convert` only ever looks up
  `currency.name`, so keys other than the eight enum codes are irrelevant).
* Python `datetime.date` values compare lexicographically on
  (year, month, day); `PyDate` mirrors that.  A real `datetime.date` always
  satisfies `1 ≤ month ≤ 12` and `1 ≤ day`; theorems that need this carry it
  as the hypothesis `PyDate.valid`.
* Python dicts preserve insertion order; `dict`-valued state is modelled as
  association lists (keys are unique in every state the program builds).
-/
import Mathlib

/-- The `ExpenseCategory` enum (source lines 17-28). -/
inductive ExpenseCategory where
  | FOOD
  | TRANSPORTATION
  | HOUSING
  | ENTERTAINMENT
  | UTILITIES
  | HEALTH
  | EDUCATION
  | SHOPPING
  | INVESTMENT
  | TRAVEL
  | OTHER
deriving DecidableEq, Repr

/-- Iteration order of the `ExpenseCategory` enum (member declaration order). -/
def allCategories : List ExpenseCategory :=
  [.FOOD, .TRANSPORTATION, .HOUSING, .ENTERTAINMENT, .UTILITIES, .HEALTH,
   .EDUCATION, .SHOPPING, .INVESTMENT, .TRAVEL, .OTHER]

/-- The `Currency` enum (source lines 30-38). -/
inductive Currency where
  | INR
  | USD
  | EUR
  | GBP
  | JPY
  | CAD
  | AUD
  | SGD
deriving DecidableEq, Repr

/-- Python exceptions that the modelled code can raise. -/
inductive PyErr where
  | unsupportedCurrency (fromCode toCode : Currency)
  | keyError (year month : Nat)
deriving DecidableEq, Repr

/-- A rate table: `CurrencyConverter._rates`, restricted to the enum codes the
program ever looks up.  `none` models a code absent from the dict. -/
def RateTable : Type := Currency → Option ℚ

/-- The hardcoded bootstrap table `CurrencyConverter._rates`
(source lines 48-57), with the float literals read as exact decimals. -/
def CurrencyConverter.base_rates : RateTable := fun c =>
  match c with
  | .INR => some 1
  | .USD => some (12/1000)
  | .EUR => some (11/1000)
  | .GBP => some (95/10000)
  | .JPY => some (178/100)
  | .CAD => some (16/1000)
  | .AUD => some (18/1000)
  | .SGD => some (16/1000)

/-- A rate table with every code absent. -/
def emptyRates : RateTable := fun _ => none

/-- `CurrencyConverter.convert` (source lines 100-111): identity when the two
codes coincide, otherwise route through the INR base after checking that both
codes are present, raising `ValueError` (`unsupportedCurrency`) when not. -/
def CurrencyConverter.convert (rates : RateTable) (amount : ℚ)
    (from_currency to_currency : Currency) : Except PyErr ℚ :=
  if from_currency = to_currency then
    .ok amount
  else
    match rates from_currency, rates to_currency with
    | some rate_from, some rate_to => .ok (amount / rate_from * rate_to)
    | _, _ => .error (.unsupportedCurrency from_currency to_currency)

/-- The `Budget` object state (source lines 143-151). -/
structure Budget where
  category : ExpenseCategory
  monthly_limit : ℚ
  currency : Currency
  current_spending : ℚ
  alert_threshold : ℚ
  alerts_triggered : Bool
deriving DecidableEq, Repr

/-- `Budget.__init__` (source lines 144-151): spending starts at 0 and the
one-shot alert flag starts cleared. -/
def Budget.init (category : ExpenseCategory) (monthly_limit : ℚ)
    (currency : Currency) (alert_threshold : ℚ) : Budget :=
  { category := category
    monthly_limit := monthly_limit
    currency := currency
    current_spending := 0
    alert_threshold := alert_threshold
    alerts_triggered := false }

/-- `Budget.percentage_used` (source lines 168-169). -/
def Budget.percentage_used (b : Budget) : ℚ :=
  if b.monthly_limit ≠ 0 then b.current_spending / b.monthly_limit * 100 else 0

/-- `Budget.remaining_budget` (source lines 165-166). -/
def Budget.remaining_budget (b : Budget) : ℚ :=
  max 0 (b.monthly_limit - b.current_spending)

/-- `Budget.add_spending` (source lines 153-163).  Returns the updated budget
together with `true` exactly when the alert branch printed an alert. -/
def Budget.add_spending (rates : RateTable) (b : Budget) (amount : ℚ)
    (expense_currency : Currency) : Except PyErr (Budget × Bool) :=
  match CurrencyConverter.convert rates amount expense_currency b.currency with
  | .error e => .error e
  | .ok converted_amount =>
    let b' := { b with current_spending := b.current_spending + converted_amount }
    if b.alerts_triggered = false ∧ b'.alert_threshold ≤ b'.percentage_used then
      .ok ({ b' with alerts_triggered := true }, true)
    else
      .ok (b', false)

/-- A sequence of `add_spending` calls on one policy instance; the second
component counts how many of the calls emitted an alert. -/
def Budget.run_spendings (rates : RateTable) :
    Budget → List (ℚ × Currency) → Except PyErr (Budget × Nat)
  | b, [] => .ok (b, 0)
  | b, (amount, cur) :: rest =>
    match Budget.add_spending rates b amount cur with
    | .error e => .error e
    | .ok (b', fired) =>
      match Budget.run_spendings rates b' rest with
      | .error e => .error e
      | .ok (b'', n) => .ok (b'', (if fired then 1 else 0) + n)

/-- Claim C6: for every currency `C`, every amount `x` and every rate table,
`convert(x, C, C)` returns `x` exactly, with no round-trip through the base
currency. -/
theorem claim_C6 (rates : RateTable) (x : ℚ) (C : Currency) :
    CurrencyConverter.convert rates x C C = .ok x := by
  simp [CurrencyConverter.convert]

/-- Claim C4: for distinct currencies that both have entries, `convert`
returns exactly `x / rate[from] * rate[to]`; for distinct currencies with
either entry missing it fails with `UnsupportedCurrency`. -/
theorem claim_C4 :
    (∀ (rates : RateTable) (x : ℚ) (f t : Currency) (rf rt : ℚ),
       f ≠ t → rates f = some rf → rates t = some rt →
       CurrencyConverter.convert rates x f t = .ok (x / rf * rt)) ∧
    (∀ (rates : RateTable) (x : ℚ) (f t : Currency),
       f ≠ t → (rates f = none ∨ rates t = none) →
       CurrencyConverter.convert rates x f t = .error (.unsupportedCurrency f t)) := by
  constructor
  · intro rates x f t rf rt hne hf ht
    simp [CurrencyConverter.convert, hne, hf, ht]
  · intro rates x f t hne hmiss
    rcases hmiss with hf | ht
    · simp [CurrencyConverter.convert, hne, hf]
    · cases hf : rates f <;> simp [CurrencyConverter.convert, hne, hf, ht]

/-- Witness for claim C4 at concrete inputs: USD → EUR through the bootstrap
table succeeds with the through-base formula, and fails on the empty table. -/
theorem claim_C4_witness :
    CurrencyConverter.convert CurrencyConverter.base_rates 100 .USD .EUR
      = .ok (100 / (12/1000) * (11/1000)) ∧
    CurrencyConverter.convert emptyRates 100 .USD .EUR
      = .error (.unsupportedCurrency .USD .EUR) :=
  ⟨claim_C4.1 CurrencyConverter.base_rates 100 .USD .EUR (12/1000) (11/1000)
      (by decide) rfl rfl,
   claim_C4.2 emptyRates 100 .USD .EUR (by decide) (Or.inl rfl)⟩

/-- Counterexample to claim C5: with `USD` absent from the table (here the
empty table), `convert(5, USD, USD)` does NOT raise `UnsupportedCurrency`; the
`from == to` short-circuit returns the amount before any table lookup. -/
theorem claim_C5_counterexample :
    CurrencyConverter.convert emptyRates 5 Currency.USD Currency.USD = .ok 5 := by
  rfl

/-- Claim C5 (amended): when `from ≠ to` and at least one of the two codes is
absent from the current rate table, `convert` fails with
`UnsupportedCurrency`; when `from = to` the amount is returned unchanged even
if the code is absent. -/
theorem claim_C5 (rates : RateTable) (x : ℚ) (f t : Currency)
    (hne : f ≠ t) (hmiss : rates f = none ∨ rates t = none) :
    CurrencyConverter.convert rates x f t = .error (.unsupportedCurrency f t) := by
  rcases hmiss with hf | ht
  · simp [CurrencyConverter.convert, hne, hf]
  · cases hf : rates f <;> simp [CurrencyConverter.convert, hne, hf, ht]

/-- Witness for claim C5 at a concrete input. -/
theorem claim_C5_witness :
    CurrencyConverter.convert emptyRates 7 .USD .EUR
      = .error (.unsupportedCurrency .USD .EUR) :=
  claim_C5 emptyRates 7 .USD .EUR (by decide) (Or.inl rfl)

/-- `percentage_used` only reads the running spend and the limit. -/
theorem Budget.percentage_congr (b1 b2 : Budget)
    (hs : b1.current_spending = b2.current_spending)
    (hl : b1.monthly_limit = b2.monthly_limit) :
    b1.percentage_used = b2.percentage_used := by
  unfold Budget.percentage_used
  rw [hs, hl]

/-- Structural description of a successful `add_spending` call: the converted
amount is added to the running spend, all policy parameters are unchanged, an
alert fires exactly when the flag was clear and the new percentage meets the
threshold, and the flag absorbs the alert. -/
theorem Budget.add_spending_ok (rates : RateTable) (b : Budget) (amount : ℚ)
    (cur : Currency) (b' : Budget) (fired : Bool)
    (h : Budget.add_spending rates b amount cur = .ok (b', fired)) :
    ∃ y, CurrencyConverter.convert rates amount cur b.currency = .ok y ∧
      b'.current_spending = b.current_spending + y ∧
      b'.monthly_limit = b.monthly_limit ∧
      b'.alert_threshold = b.alert_threshold ∧
      b'.currency = b.currency ∧
      b'.category = b.category ∧
      (fired = true ↔ (b.alerts_triggered = false ∧
        b.alert_threshold ≤
          Budget.percentage_used { b with current_spending := b.current_spending + y })) ∧
      b'.alerts_triggered = (b.alerts_triggered || fired) := by
  unfold Budget.add_spending at h
  cases hc : CurrencyConverter.convert rates amount cur b.currency with
  | error e =>
    rw [hc] at h
    exact absurd h (by simp)
  | ok y =>
    rw [hc] at h
    refine ⟨y, rfl, ?_⟩
    dsimp only at h
    split at h
    case isTrue hcond =>
      cases h
      simpa using hcond
    case isFalse hcond =>
      cases h
      simp only [not_and] at hcond
      constructor
      · rfl
      refine ⟨rfl, rfl, rfl, rfl, ?_, by simp⟩
      simp only [Bool.false_eq_true, false_iff, not_and]
      intro hflag
      exact fun hle => (hcond hflag) hle

/-- Conversion of a non-negative amount through a table of positive rates is
non-negative. -/
theorem convert_nonneg (rates : RateTable) (x : ℚ) (f t : Currency) (y : ℚ)
    (hr : ∀ c r, rates c = some r → 0 < r) (hx : 0 ≤ x)
    (hc : CurrencyConverter.convert rates x f t = .ok y) : 0 ≤ y := by
  unfold CurrencyConverter.convert at hc
  split at hc
  · cases hc
    exact hx
  · rcases hf : rates f with _ | rf <;> rcases ht : rates t with _ | rt <;>
      rw [hf, ht] at hc <;> simp at hc
    have hrf := hr f rf hf
    have hrt := hr t rt ht
    rw [← hc]
    exact mul_nonneg (div_nonneg hx hrf.le) hrt.le

/-- Policy parameters are constant across a whole sequence of `add_spending`
calls, and an already-alerted policy never emits again and keeps its flag. -/
theorem Budget.run_spendings_props (rates : RateTable) :
    ∀ (calls : List (ℚ × Currency)) (b b'' : Budget) (n : Nat),
    Budget.run_spendings rates b calls = .ok (b'', n) →
    b''.monthly_limit = b.monthly_limit ∧ b''.alert_threshold = b.alert_threshold ∧
    b''.currency = b.currency ∧ b''.category = b.category ∧
    (b.alerts_triggered = true → b''.alerts_triggered = true ∧ n = 0) := by
  intro calls
  induction calls with
  | nil =>
    intro b b'' n h
    cases h
    simp
  | cons p rest ih =>
    intro b b'' n h
    obtain ⟨amount, cur⟩ := p
    unfold Budget.run_spendings at h
    cases hadd : Budget.add_spending rates b amount cur with
    | error e =>
      rw [hadd] at h
      exact absurd h (by simp)
    | ok r =>
      obtain ⟨b', fired⟩ := r
      rw [hadd] at h
      dsimp only at h
      cases hrun : Budget.run_spendings rates b' rest with
      | error e =>
        rw [hrun] at h
        exact absurd h (by simp)
      | ok r' =>
        obtain ⟨bb, m⟩ := r'
        rw [hrun] at h
        cases h
        obtain ⟨y, _, _, hlim, hth, hcur, hcat, hiff, hflag⟩ :=
          Budget.add_spending_ok rates b amount cur b' fired hadd
        obtain ⟨ilim, ith, icur, icat, ialert⟩ :=
          ih b' _ _ hrun
        refine ⟨by rw [ilim, hlim], by rw [ith, hth], by rw [icur, hcur],
          by rw [icat, hcat], ?_⟩
        intro htrig
        have hnf : fired = false := by
          cases fired with
          | false => rfl
          | true =>
            have := (hiff.mp rfl).1
            rw [htrig] at this
            cases this
        have hb' : b'.alerts_triggered = true := by
          rw [hflag, htrig, hnf]
          rfl
        obtain ⟨hb'', hm⟩ := ialert hb'
        subst hm
        rw [hnf]
        exact ⟨hb'', rfl⟩

/-- With positive rates and non-negative amounts, the running spend never
decreases across a sequence of `add_spending` calls. -/
theorem Budget.run_spendings_mono (rates : RateTable)
    (hr : ∀ c r, rates c = some r → 0 < r) :
    ∀ (calls : List (ℚ × Currency)) (b b'' : Budget) (n : Nat),
    (∀ p ∈ calls, 0 ≤ p.1) →
    Budget.run_spendings rates b calls = .ok (b'', n) →
    b.current_spending ≤ b''.current_spending := by
  intro calls
  induction calls with
  | nil =>
    intro b b'' n _ h
    cases h
    exact le_refl _
  | cons p rest ih =>
    intro b b'' n ha h
    obtain ⟨amount, cur⟩ := p
    unfold Budget.run_spendings at h
    cases hadd : Budget.add_spending rates b amount cur with
    | error e =>
      rw [hadd] at h
      exact absurd h (by simp)
    | ok r =>
      obtain ⟨b', fired⟩ := r
      rw [hadd] at h
      dsimp only at h
      cases hrun : Budget.run_spendings rates b' rest with
      | error e =>
        rw [hrun] at h
        exact absurd h (by simp)
      | ok r' =>
        obtain ⟨bb, m⟩ := r'
        rw [hrun] at h
        cases h
        obtain ⟨y, hcv, hsp, _⟩ :=
          Budget.add_spending_ok rates b amount cur b' fired hadd
        have hy : 0 ≤ y :=
          convert_nonneg rates amount cur b.currency y hr
            (ha (amount, cur) (by simp)) hcv
        have h1 : b.current_spending ≤ b'.current_spending := by
          rw [hsp]
          linarith
        exact le_trans h1 (ih b' _ _ (fun q hq => ha q (by simp [hq])) hrun)

/-- Equality of `Except` results is decidable, so concrete program runs can be
checked by `decide`. -/
instance {ε α : Type} [DecidableEq ε] [DecidableEq α] : DecidableEq (Except ε α) :=
  fun x y =>
    match x, y with
    | .ok a, .ok b =>
      if h : a = b then isTrue (by rw [h])
      else isFalse (by intro hc; cases hc; exact h rfl)
    | .error a, .error b =>
      if h : a = b then isTrue (by rw [h])
      else isFalse (by intro hc; cases hc; exact h rfl)
    | .ok _, .error _ => isFalse (by intro hc; cases hc)
    | .error _, .ok _ => isFalse (by intro hc; cases hc)

/-- A rate table mapping every code to rate 1; used for concrete witnesses. -/
def allOneRates : RateTable := fun _ => some 1

/-- Every rate in `allOneRates` is positive. -/
theorem allOneRates_pos : ∀ c r, allOneRates c = some r → 0 < r := by
  intro c r h
  have hr : r = 1 := by simpa [allOneRates] using h.symm
  rw [hr]
  norm_num

/-- Claim C1: an `add_spending` call emits an alert exactly when, after the
converted amount is added to the running spend, the percentage used meets the
threshold and no alert has fired before on that policy instance; once alerted,
no later call on the instance ever emits again; and in the concrete scenario
(limit 1000, threshold 80) spend 799 emits nothing, reaching 800 emits exactly
one alert, and pushing on to 1500 emits no further alert. -/
theorem claim_C1 :
    (∀ (rates : RateTable) (b : Budget) (amount : ℚ) (cur : Currency)
       (b' : Budget) (fired : Bool),
       Budget.add_spending rates b amount cur = .ok (b', fired) →
       (fired = true ↔
         (b.alerts_triggered = false ∧
          b'.alert_threshold ≤ b'.percentage_used))) ∧
    (∀ (rates : RateTable) (b : Budget) (calls : List (ℚ × Currency))
       (b'' : Budget) (n : Nat),
       b.alerts_triggered = true →
       Budget.run_spendings rates b calls = .ok (b'', n) → n = 0) ∧
    (Budget.run_spendings emptyRates (Budget.init .FOOD 1000 .INR 80)
        [(799, .INR)] = .ok (⟨.FOOD, 1000, .INR, 799, 80, false⟩, 0) ∧
     Budget.run_spendings emptyRates (Budget.init .FOOD 1000 .INR 80)
        [(799, .INR), (1, .INR)] = .ok (⟨.FOOD, 1000, .INR, 800, 80, true⟩, 1) ∧
     Budget.run_spendings emptyRates (Budget.init .FOOD 1000 .INR 80)
        [(799, .INR), (1, .INR), (700, .INR)]
        = .ok (⟨.FOOD, 1000, .INR, 1500, 80, true⟩, 1)) := by
  refine ⟨?_, ?_,
    by norm_num [Budget.run_spendings, Budget.add_spending,
      CurrencyConverter.convert, Budget.init, Budget.percentage_used],
    by norm_num [Budget.run_spendings, Budget.add_spending,
      CurrencyConverter.convert, Budget.init, Budget.percentage_used],
    by norm_num [Budget.run_spendings, Budget.add_spending,
      CurrencyConverter.convert, Budget.init, Budget.percentage_used]⟩
  · intro rates b amount cur b' fired h
    obtain ⟨y, hcv, hsp, hlim, hth, _, _, hiff, _⟩ :=
      Budget.add_spending_ok rates b amount cur b' fired h
    rw [hiff, hth]
    have hpct : b'.percentage_used =
        Budget.percentage_used { b with current_spending := b.current_spending + y } :=
      Budget.percentage_congr _ _ (by rw [hsp]) (by rw [hlim])
    rw [hpct]
  · intro rates b calls b'' n htrig hrun
    exact ((Budget.run_spendings_props rates calls b b'' n hrun).2.2.2.2 htrig).2

/-- Witness for claim C1: the 799 → 800 call fires, and an already-alerted
policy run further emits zero alerts. -/
theorem claim_C1_witness :
    ((true = true) ↔
      ((Budget.init .FOOD 1000 .INR 80).alerts_triggered = false ∧
       (⟨.FOOD, 1000, .INR, 800, 80, true⟩ : Budget).alert_threshold ≤
         (⟨.FOOD, 1000, .INR, 800, 80, true⟩ : Budget).percentage_used)) ∧
    (0 : Nat) = 0 :=
  ⟨claim_C1.1 emptyRates (Budget.init .FOOD 1000 .INR 80) 800 .INR
      ⟨.FOOD, 1000, .INR, 800, 80, true⟩ true
      (by norm_num [Budget.add_spending, CurrencyConverter.convert,
        Budget.init, Budget.percentage_used]),
   claim_C1.2.1 emptyRates ⟨.FOOD, 1000, .INR, 800, 80, true⟩ [(700, .INR)]
      ⟨.FOOD, 1000, .INR, 1500, 80, true⟩ 0 rfl
      (by norm_num [Budget.run_spendings, Budget.add_spending,
        CurrencyConverter.convert, Budget.percentage_used])⟩

/-- Counterexample to claim C8: the interface accepts negative amounts (no
validation), and a single `add_spending` of −100 INR on a fresh policy leaves
`current_spending = −100 < 0`. -/
theorem claim_C8_counterexample :
    Budget.add_spending emptyRates (Budget.init .FOOD 1000 .INR 80) (-100) .INR
      = .ok (⟨.FOOD, 1000, .INR, -100, 80, false⟩, false) ∧
    ¬ (0 ≤ (⟨.FOOD, 1000, .INR, -100, 80, false⟩ : Budget).current_spending) := by
  constructor
  · norm_num [Budget.add_spending, CurrencyConverter.convert, Budget.init,
      Budget.percentage_used]
  · norm_num

/-- Claim C8 (amended): `current_spending` starts at 0 and stays non-negative
across every sequence of `add_spending` calls whose amounts are non-negative,
provided all rates in the table are positive; for negative amounts (which the
interface accepts without validation) the invariant can be violated. -/
theorem claim_C8 :
    (∀ (cat : ExpenseCategory) (lim : ℚ) (cur : Currency) (th : ℚ),
       0 ≤ (Budget.init cat lim cur th).current_spending) ∧
    (∀ (rates : RateTable) (b : Budget) (calls : List (ℚ × Currency))
       (b'' : Budget) (n : Nat),
       (∀ c r, rates c = some r → 0 < r) →
       (∀ p ∈ calls, 0 ≤ p.1) →
       0 ≤ b.current_spending →
       Budget.run_spendings rates b calls = .ok (b'', n) →
       0 ≤ b''.current_spending) := by
  constructor
  · intro cat lim cur th
    exact le_refl 0
  · intro rates b calls b'' n hr ha hb hrun
    exact le_trans hb (Budget.run_spendings_mono rates hr calls b b'' n ha hrun)

/-- Witness for claim C8 at concrete inputs. -/
theorem claim_C8_witness :
    (0 ≤ (Budget.init .FOOD 1000 .INR 80).current_spending) ∧
    (0 ≤ (⟨.FOOD, 1000, .INR, 799, 80, false⟩ : Budget).current_spending) :=
  ⟨claim_C8.1 .FOOD 1000 .INR 80,
   claim_C8.2 allOneRates (Budget.init .FOOD 1000 .INR 80) [(799, .INR)]
      ⟨.FOOD, 1000, .INR, 799, 80, false⟩ 0 allOneRates_pos (by norm_num)
      (by norm_num [Budget.init])
      (by norm_num [Budget.run_spendings, Budget.add_spending,
        CurrencyConverter.convert, Budget.init, Budget.percentage_used])⟩

/-- `percentage_used` is monotone in the running spend for a positive limit. -/
theorem Budget.percentage_mono (b b' : Budget)
    (hlim : b'.monthly_limit = b.monthly_limit) (hpos : 0 < b.monthly_limit)
    (hsp : b.current_spending ≤ b'.current_spending) :
    b.percentage_used ≤ b'.percentage_used := by
  unfold Budget.percentage_used
  rw [hlim]
  have hne : b.monthly_limit ≠ 0 := ne_of_gt hpos
  simp only [hne, if_true, ne_eq, not_false_eq_true]
  have h1 : b.current_spending / b.monthly_limit ≤
      b'.current_spending / b.monthly_limit := by
    gcongr
  linarith

/-- Claim C10: with non-negative amounts and positive rates, each
`add_spending` call can only increase the running spend; across any such
sequence the spend is non-decreasing (hence stays ≥ 0 from a non-negative
start) and, when the monthly limit is positive, `percentage_used` is
non-decreasing as well. -/
theorem claim_C10 :
    (∀ (rates : RateTable) (b : Budget) (amount : ℚ) (cur : Currency)
       (b' : Budget) (fired : Bool),
       (∀ c r, rates c = some r → 0 < r) → 0 ≤ amount →
       Budget.add_spending rates b amount cur = .ok (b', fired) →
       b.current_spending ≤ b'.current_spending) ∧
    (∀ (rates : RateTable) (b : Budget) (calls : List (ℚ × Currency))
       (b'' : Budget) (n : Nat),
       (∀ c r, rates c = some r → 0 < r) →
       (∀ p ∈ calls, 0 ≤ p.1) →
       Budget.run_spendings rates b calls = .ok (b'', n) →
       b.current_spending ≤ b''.current_spending ∧
       (0 ≤ b.current_spending → 0 ≤ b''.current_spending) ∧
       (0 < b.monthly_limit → b.percentage_used ≤ b''.percentage_used)) := by
  constructor
  · intro rates b amount cur b' fired hr hx h
    obtain ⟨y, hcv, hsp, _⟩ := Budget.add_spending_ok rates b amount cur b' fired h
    have hy : 0 ≤ y := convert_nonneg rates amount cur b.currency y hr hx hcv
    rw [hsp]
    linarith
  · intro rates b calls b'' n hr ha hrun
    have hmono := Budget.run_spendings_mono rates hr calls b b'' n ha hrun
    have hlim := (Budget.run_spendings_props rates calls b b'' n hrun).1
    exact ⟨hmono, fun hb => le_trans hb hmono,
      fun hpos => Budget.percentage_mono b b'' hlim hpos hmono⟩

/-- Witness for claim C10 at concrete inputs. -/
theorem claim_C10_witness :
    ((Budget.init .FOOD 1000 .INR 80).current_spending ≤
      (⟨.FOOD, 1000, .INR, 799, 80, false⟩ : Budget).current_spending) ∧
    ((⟨.FOOD, 1000, .INR, 799, 80, false⟩ : Budget).current_spending ≤
      (⟨.FOOD, 1000, .INR, 1500, 80, true⟩ : Budget).current_spending ∧
     (0 ≤ (⟨.FOOD, 1000, .INR, 799, 80, false⟩ : Budget).current_spending →
      0 ≤ (⟨.FOOD, 1000, .INR, 1500, 80, true⟩ : Budget).current_spending) ∧
     (0 < (⟨.FOOD, 1000, .INR, 799, 80, false⟩ : Budget).monthly_limit →
      (⟨.FOOD, 1000, .INR, 799, 80, false⟩ : Budget).percentage_used ≤
        (⟨.FOOD, 1000, .INR, 1500, 80, true⟩ : Budget).percentage_used)) :=
  ⟨claim_C10.1 allOneRates (Budget.init .FOOD 1000 .INR 80) 799 .INR
      ⟨.FOOD, 1000, .INR, 799, 80, false⟩ false allOneRates_pos (by norm_num)
      (by norm_num [Budget.add_spending, CurrencyConverter.convert,
        Budget.init, Budget.percentage_used]),
   claim_C10.2 allOneRates ⟨.FOOD, 1000, .INR, 799, 80, false⟩ [(701, .INR)]
      ⟨.FOOD, 1000, .INR, 1500, 80, true⟩ 1 allOneRates_pos (by norm_num)
      (by norm_num [Budget.run_spendings, Budget.add_spending,
        CurrencyConverter.convert, Budget.percentage_used])⟩

/-- The `ExpenseTag` dataclass (source lines 40-43). -/
structure ExpenseTag where
  name : String
  category : ExpenseCategory
deriving DecidableEq, Repr

/-- The tag registry `User.tags`: a Python dict keyed by tag name, modelled as
an association list in insertion order (dict keys are unique). -/
abbrev TagRegistry := List ExpenseTag

/-- Dict key lookup `tag in self.tags` / `self.tags[tag]`. -/
def lookup_tag (registry : TagRegistry) (name : String) : Option ExpenseTag :=
  registry.find? (fun t => t.name == name)

/-- Python `str.lower()`: lower-case every character. -/
def py_lower (s : String) : String := ⟨s.data.map Char.toLower⟩

/-- Auxiliary for substring containment: list begins with the needle. -/
def starts_with : List Char → List Char → Bool
  | [], _ => true
  | _ :: _, [] => false
  | a :: as, b :: bs => a == b && starts_with as bs

/-- Auxiliary for substring containment: needle occurs somewhere. -/
def contains_sub (needle : List Char) : List Char → Bool
  | [] => starts_with needle []
  | c :: rest => starts_with needle (c :: rest) || contains_sub needle rest

/-- Python's `sub in haystack` substring test on strings. -/
def str_contains (haystack sub : String) : Bool :=
  contains_sub sub.data haystack.data

/-- `User._categorize_from_tags` (source lines 242-246): scan the given tag
names in order and return the category of the first one present in the
registry, or `None`. -/
def categorize_from_tags (registry : TagRegistry) :
    List String → Option ExpenseCategory
  | [] => none
  | t :: ts =>
    match lookup_tag registry t with
    | some tag => some tag.category
    | none => categorize_from_tags registry ts

/-- The `for tag_name, tag in self.tags.items()` scan inside
`_categorize_from_description`, with the already-lowercased description. -/
def description_scan (description_lower : String) : TagRegistry → ExpenseCategory
  | [] => .OTHER
  | tag :: rest =>
    if str_contains description_lower tag.name then tag.category
    else description_scan description_lower rest

/-- `User._categorize_from_description` (source lines 248-253): lowercase the
description, then return the category of the first registry entry whose name
(verbatim, NOT lowercased) occurs in it as a substring, else `OTHER`. -/
def categorize_from_description (registry : TagRegistry)
    (description : String) : ExpenseCategory :=
  description_scan (py_lower description) registry

/-- The category-resolution step of `User.add_expense` (source lines
220-221): an explicit category wins; otherwise the tag scan; a falsy (`None`)
tag-scan result falls through (Python `or`) to the description scan. -/
def resolve_category (category : Option ExpenseCategory) (tags : List String)
    (description : String) (registry : TagRegistry) : ExpenseCategory :=
  match category with
  | some c => c
  | none =>
    match categorize_from_tags registry tags with
    | some c => c
    | none => categorize_from_description registry description

/-- Claim C3: category resolution follows the four-step precedence with first
match winning — explicit category verbatim with no heuristics; otherwise the
tag list scanned in order, first registered tag's category; otherwise the
description fallback; and for a registry binding `rent → housing`, tags
`["rent"]` resolve to housing regardless of the description. -/
theorem claim_C3 :
    (∀ (c : ExpenseCategory) (tags : List String) (description : String)
       (registry : TagRegistry),
       resolve_category (some c) tags description registry = c) ∧
    (∀ (t : String) (ts : List String) (description : String)
       (registry : TagRegistry) (e : ExpenseTag),
       lookup_tag registry t = some e →
       resolve_category none (t :: ts) description registry = e.category) ∧
    (∀ (t : String) (ts : List String) (description : String)
       (registry : TagRegistry),
       lookup_tag registry t = none →
       resolve_category none (t :: ts) description registry =
         resolve_category none ts description registry) ∧
    (∀ (tags : List String) (description : String) (registry : TagRegistry),
       categorize_from_tags registry tags = none →
       resolve_category none tags description registry =
         categorize_from_description registry description) ∧
    (∀ (description : String) (registry : TagRegistry),
       lookup_tag registry "rent" = some ⟨"rent", .HOUSING⟩ →
       resolve_category none ["rent"] description registry = .HOUSING) := by
  refine ⟨?_, ?_, ?_, ?_, ?_⟩
  · intro c tags description registry
    rfl
  · intro t ts description registry e h
    simp [resolve_category, categorize_from_tags, h]
  · intro t ts description registry h
    simp [resolve_category, categorize_from_tags, h]
  · intro tags description registry h
    simp [resolve_category, h]
  · intro description registry h
    simp [resolve_category, categorize_from_tags, h]

/-- Witness for claim C3: with `coffee → food` and `rent → housing`
registered, tags `["rent"]` resolve to housing although the description
mentions the registered keyword `coffee`. -/
theorem claim_C3_witness :
    resolve_category none ["rent"] "paying for coffee"
      [⟨"coffee", .FOOD⟩, ⟨"rent", .HOUSING⟩] = .HOUSING :=
  claim_C3.2.2.2.2 "paying for coffee"
    [⟨"coffee", .FOOD⟩, ⟨"rent", .HOUSING⟩] (by decide)

/-- Counterexample to claim C9: the registry name `RENT` IS a case-insensitive
substring of the description `monthly rent` (lowercasing both sides makes the
match evident), yet the code returns `OTHER`, not the entry's category: only
the description is lowercased, the registry name is used verbatim. -/
theorem claim_C9_counterexample :
    str_contains (py_lower "monthly rent") (py_lower "RENT") = true ∧
    categorize_from_description [⟨"RENT", .HOUSING⟩] "monthly rent"
      = .OTHER := by
  decide

/-- Claim C9 (amended): the description fallback returns the category of the
first registry entry, in registry order, whose VERBATIM name occurs as a
substring of the lowercased description, and `OTHER` when no entry matches;
the match is insensitive to the case of the description only (descriptions
with the same lowercase form classify identically), not to the case of the
registry name. -/
theorem claim_C9 :
    (∀ (registry : TagRegistry) (description : String) (e : ExpenseTag),
       registry.find? (fun t => str_contains (py_lower description) t.name)
           = some e →
       categorize_from_description registry description = e.category) ∧
    (∀ (registry : TagRegistry) (description : String),
       registry.find? (fun t => str_contains (py_lower description) t.name)
           = none →
       categorize_from_description registry description = .OTHER) ∧
    (∀ (registry : TagRegistry) (d1 d2 : String),
       py_lower d1 = py_lower d2 →
       categorize_from_description registry d1 =
         categorize_from_description registry d2) := by
  refine ⟨?_, ?_, ?_⟩
  · intro registry description e h
    induction registry with
    | nil => simp [List.find?] at h
    | cons tag rest ih =>
      unfold categorize_from_description description_scan
      rcases hm : str_contains (py_lower description) tag.name with _ | _
      · rw [List.find?_cons_of_neg _ (by simp [hm])] at h
        simp [hm]
        exact ih h
      · rw [List.find?_cons_of_pos _ (by simp [hm])] at h
        cases h
        simp [hm]
  · intro registry description h
    induction registry with
    | nil => rfl
    | cons tag rest ih =>
      unfold categorize_from_description description_scan
      rcases hm : str_contains (py_lower description) tag.name with _ | _
      · rw [List.find?_cons_of_neg _ (by simp [hm])] at h
        simp [hm]
        exact ih h
      · rw [List.find?_cons_of_pos _ (by simp [hm])] at h
        cases h
  · intro registry d1 d2 h
    unfold categorize_from_description
    rw [h]

/-- Witness for claim C9 at concrete inputs: `fuel → transportation` matches
`Fuel refill` (description case is irrelevant), and descriptions differing
only in case classify identically. -/
theorem claim_C9_witness :
    categorize_from_description [⟨"fuel", .TRANSPORTATION⟩] "Fuel refill"
      = (⟨"fuel", .TRANSPORTATION⟩ : ExpenseTag).category ∧
    categorize_from_description [⟨"fuel", .TRANSPORTATION⟩] "FUEL stop"
      = categorize_from_description [⟨"fuel", .TRANSPORTATION⟩] "fuel stop" :=
  ⟨claim_C9.1 [⟨"fuel", .TRANSPORTATION⟩] "Fuel refill"
      ⟨"fuel", .TRANSPORTATION⟩ (by decide),
   claim_C9.2.2 [⟨"fuel", .TRANSPORTATION⟩] "FUEL stop" "fuel stop"
      (by decide)⟩

/-- A Python `datetime.date` value (year, month, day). -/
structure PyDate where
  year : Nat
  month : Nat
  day : Nat
deriving DecidableEq, Repr

/-- Python date `<`: lexicographic on (year, month, day). -/
def PyDate.lt (a b : PyDate) : Bool :=
  decide (a.year < b.year ∨ (a.year = b.year ∧
    (a.month < b.month ∨ (a.month = b.month ∧ a.day < b.day))))

/-- Python date `<=`. -/
def PyDate.le (a b : PyDate) : Bool := PyDate.lt a b || a == b

/-- Invariant of every real `datetime.date`: month in 1..12 and day ≥ 1. -/
def PyDate.valid (d : PyDate) : Prop :=
  1 ≤ d.month ∧ d.month ≤ 12 ∧ 1 ≤ d.day

instance (d : PyDate) : Decidable d.valid := by
  unfold PyDate.valid
  infer_instance

/-- The `Expense` dataclass (source lines 119-129). -/
structure Expense where
  amount : ℚ
  category : ExpenseCategory
  description : String
  date : PyDate
  currency : Currency
  is_recurring : Bool
  recurring_period_days : Int
  tags : List String
  payment_method : String
deriving DecidableEq, Repr

/-- The two `continue` guards of the breakdown/CSV loops (source lines
274-277): an expense is kept when neither an (optional) start bound exceeds
its date nor its date exceeds an (optional) end bound. -/
def in_range (start_date end_date : Option PyDate) (d : PyDate) : Bool :=
  !(match start_date with | some s => PyDate.lt d s | none => false) &&
  !(match end_date with | some e => PyDate.lt e d | none => false)

/-- The conversion expression `expense.amount if expense.currency ==
target_currency else converter.convert(...)` (source lines 279-280). -/
def amount_in (rates : RateTable) (e : Expense) (target : Currency) :
    Except PyErr ℚ :=
  if e.currency = target then .ok e.amount
  else CurrencyConverter.convert rates e.amount e.currency target

/-- The accumulation loop of `User.get_spending_breakdown` (source lines
270-281): starting from the all-zero per-category dict, add each in-range
expense's converted amount to its category bucket. -/
def breakdown_fold (rates : RateTable) (target : Currency)
    (start_date end_date : Option PyDate) :
    (ExpenseCategory → ℚ) → List Expense → Except PyErr (ExpenseCategory → ℚ)
  | acc, [] => .ok acc
  | acc, e :: rest =>
    if in_range start_date end_date e.date then
      match amount_in rates e target with
      | .error err => .error err
      | .ok amt =>
        breakdown_fold rates target start_date end_date
          (fun c => if c = e.category then acc c + amt else acc c) rest
    else
      breakdown_fold rates target start_date end_date acc rest

/-- `User.get_spending_breakdown` (source lines 264-283): run the
accumulation loop, then keep only the categories with strictly positive
totals (in enum iteration order, as the dict comprehension does). -/
def get_spending_breakdown (rates : RateTable) (expenses : List Expense)
    (target : Currency) (start_date end_date : Option PyDate) :
    Except PyErr (List (ExpenseCategory × ℚ)) :=
  match breakdown_fold rates target start_date end_date (fun _ => 0) expenses with
  | .error err => .error err
  | .ok f =>
    .ok (allCategories.filterMap
      (fun c => if 0 < f c then some (c, f c) else none))

/-- Reference quantity of the claim: the sum of the converted amounts of the
records inside the date range, accumulated in ledger order. -/
def included_sum (rates : RateTable) (target : Currency)
    (start_date end_date : Option PyDate) :
    ℚ → List Expense → Except PyErr ℚ
  | t, [] => .ok t
  | t, e :: rest =>
    if in_range start_date end_date e.date then
      match amount_in rates e target with
      | .error err => .error err
      | .ok amt => included_sum rates target start_date end_date (t + amt) rest
    else
      included_sum rates target start_date end_date t rest

/-- Total of a per-category dict over all categories. -/
def category_sum (f : ExpenseCategory → ℚ) : ℚ := (allCategories.map f).sum

/-- Sum of a pointwise sum of maps splits. -/
theorem list_sum_map_add {α : Type} (l : List α) (f g : α → ℚ) :
    (l.map (fun a => f a + g a)).sum = (l.map f).sum + (l.map g).sum := by
  induction l with
  | nil => simp
  | cons a t ih =>
    simp [ih]
    ring

/-- Bumping one category's bucket adds the bump to the dict total. -/
theorem category_sum_update (g : ExpenseCategory → ℚ) (cat : ExpenseCategory)
    (amt : ℚ) :
    category_sum (fun c => if c = cat then g c + amt else g c)
      = category_sum g + amt := by
  have hfun : (fun c => if c = cat then g c + amt else g c)
      = (fun c => g c + (if c = cat then amt else 0)) := by
    funext c
    by_cases h : c = cat <;> simp [h]
  have hone : (allCategories.map (fun c => if c = cat then amt else 0)).sum
      = amt := by
    cases cat <;> simp [allCategories]
  unfold category_sum
  rw [hfun, list_sum_map_add, hone]

/-- The accumulation loop relates to the plain running sum of included
records: the dict total grows by exactly the included sum. -/
theorem breakdown_fold_sum (rates : RateTable) (target : Currency)
    (start_date end_date : Option PyDate) :
    ∀ (exps : List Expense) (acc f : ExpenseCategory → ℚ) (t : ℚ),
    breakdown_fold rates target start_date end_date acc exps = .ok f →
    included_sum rates target start_date end_date t exps
      = .ok (t + (category_sum f - category_sum acc)) := by
  intro exps
  induction exps with
  | nil =>
    intro acc f t h
    simp [breakdown_fold] at h
    subst h
    simp [included_sum]
  | cons e rest ih =>
    intro acc f t h
    unfold breakdown_fold at h
    unfold included_sum
    rcases hir : in_range start_date end_date e.date with _ | _
    · rw [hir] at h
      simp only [Bool.false_eq_true, if_false] at h ⊢
      exact ih acc f t h
    · rw [hir] at h
      simp only [if_true] at h ⊢
      cases ha : amount_in rates e target with
      | error err =>
        rw [ha] at h
        exact absurd h (by simp)
      | ok amt =>
        rw [ha] at h
        dsimp only at h ⊢
        rw [ih _ f (t + amt) h]
        congr 1
        rw [category_sum_update]
        ring

/-- The accumulation loop preserves non-negativity of every bucket when
amounts are non-negative and rates positive. -/
theorem breakdown_fold_nonneg (rates : RateTable) (target : Currency)
    (start_date end_date : Option PyDate)
    (hr : ∀ c r, rates c = some r → 0 < r) :
    ∀ (exps : List Expense) (acc f : ExpenseCategory → ℚ),
    (∀ e ∈ exps, 0 ≤ e.amount) → (∀ c, 0 ≤ acc c) →
    breakdown_fold rates target start_date end_date acc exps = .ok f →
    ∀ c, 0 ≤ f c := by
  intro exps
  induction exps with
  | nil =>
    intro acc f _ hacc h
    simp [breakdown_fold] at h
    subst h
    exact hacc
  | cons e rest ih =>
    intro acc f hexp hacc h
    unfold breakdown_fold at h
    rcases hir : in_range start_date end_date e.date with _ | _
    · rw [hir] at h
      simp only [Bool.false_eq_true, if_false] at h
      exact ih acc f (fun x hx => hexp x (by simp [hx])) hacc h
    · rw [hir] at h
      simp only [if_true] at h
      cases ha : amount_in rates e target with
      | error err =>
        rw [ha] at h
        exact absurd h (by simp)
      | ok amt =>
        rw [ha] at h
        have hamt : 0 ≤ amt := by
          unfold amount_in at ha
          split at ha
          · cases ha
            exact hexp e (by simp)
          · exact convert_nonneg rates e.amount e.currency target amt hr
              (hexp e (by simp)) ha
        refine ih _ f (fun x hx => hexp x (by simp [hx])) ?_ h
        intro c
        by_cases hc : c = e.category <;> simp [hc]
        · exact add_nonneg (hacc e.category) hamt
        · exact hacc c

/-- Records strictly outside the bounds do not affect the accumulation loop:
folding over the filtered ledger gives the same result. -/
theorem breakdown_fold_filter (rates : RateTable) (target : Currency)
    (start_date end_date : Option PyDate) :
    ∀ (exps : List Expense) (acc : ExpenseCategory → ℚ),
    breakdown_fold rates target start_date end_date acc
        (exps.filter (fun e => in_range start_date end_date e.date))
      = breakdown_fold rates target start_date end_date acc exps := by
  intro exps
  induction exps with
  | nil =>
    intro acc
    rfl
  | cons e rest ih =>
    intro acc
    rcases hir : in_range start_date end_date e.date with _ | _
    · rw [List.filter_cons_of_neg (by simp [hir])]
      conv_rhs => unfold breakdown_fold
      rw [hir]
      simp only [Bool.false_eq_true, if_false]
      exact ih acc
    · rw [List.filter_cons_of_pos (by simp [hir])]
      conv_lhs => unfold breakdown_fold
      conv_rhs => unfold breakdown_fold
      rw [hir]
      simp only [if_true]
      cases ha : amount_in rates e target with
      | error err => rfl
      | ok amt => exact ih _

/-- Dropping the non-positive buckets does not change the total when every
bucket is non-negative (the dropped ones are exactly 0). -/
theorem sum_filter_pos :
    ∀ (l : List ExpenseCategory) (f : ExpenseCategory → ℚ),
    (∀ c ∈ l, 0 ≤ f c) →
    ((l.filterMap (fun c => if 0 < f c then some (c, f c) else none)).map
        Prod.snd).sum
      = (l.map f).sum := by
  intro l f
  induction l with
  | nil => simp
  | cons c t ih =>
    intro h
    by_cases hc : 0 < f c
    · simp only [List.filterMap_cons, hc, if_true, List.map_cons, List.sum_cons]
      rw [ih (fun x hx => h x (by simp [hx]))]
    · have hzero : f c = 0 := le_antisymm (not_lt.mp hc) (h c (by simp))
      rw [List.filterMap_cons, if_neg hc, List.map_cons, List.sum_cons, hzero,
        ih (fun x hx => h x (by simp [hx]))]
      ring

/-- Claim C2 (amended): `get_spending_breakdown` is unchanged by dropping the
records strictly outside the date bounds, returns only categories with
strictly positive totals, and — provided every expense amount is non-negative
and all table rates are positive — the sum of the returned bucket values
equals the running sum of the converted amounts of the included records.
(With a negative amount, a category total can be negative; such a bucket is
dropped by the positivity filter and the sum equality fails.) -/
theorem claim_C2 (rates : RateTable) (expenses : List Expense)
    (target : Currency) (start_date end_date : Option PyDate)
    (res : List (ExpenseCategory × ℚ))
    (h : get_spending_breakdown rates expenses target start_date end_date
      = .ok res) :
    get_spending_breakdown rates
        (expenses.filter (fun e => in_range start_date end_date e.date))
        target start_date end_date = .ok res ∧
    (∀ p ∈ res, 0 < p.2) ∧
    ((∀ e ∈ expenses, 0 ≤ e.amount) → (∀ c r, rates c = some r → 0 < r) →
      included_sum rates target start_date end_date 0 expenses
        = .ok ((res.map Prod.snd).sum)) := by
  unfold get_spending_breakdown at h ⊢
  cases hf : breakdown_fold rates target start_date end_date (fun _ => 0)
      expenses with
  | error err =>
    rw [hf] at h
    exact absurd h (by simp)
  | ok f =>
    rw [hf] at h
    dsimp only at h
    cases h
    refine ⟨?_, ?_, ?_⟩
    · rw [breakdown_fold_filter rates target start_date end_date expenses, hf]
    · intro p hp
      simp only [List.mem_filterMap] at hp
      obtain ⟨c, _, hc⟩ := hp
      by_cases h0 : 0 < f c
      · rw [if_pos h0] at hc
        cases hc
        exact h0
      · rw [if_neg h0] at hc
        cases hc
    · intro hamts hpos
      have hsum := breakdown_fold_sum rates target start_date end_date expenses
        (fun _ => 0) f 0 hf
      have hnn := breakdown_fold_nonneg rates target start_date end_date hpos
        expenses (fun _ => 0) f hamts (fun _ => le_refl 0) hf
      have hres : (((allCategories.filterMap
          (fun c => if 0 < f c then some (c, f c) else none)).map
            Prod.snd).sum) = category_sum f := by
        rw [sum_filter_pos allCategories f (fun c _ => hnn c)]
        rfl
      have hzero : category_sum (fun _ => (0:ℚ)) = 0 := by
        simp [category_sum, allCategories]
      rw [hsum, hres, hzero]
      congr 1
      ring

/-- Counterexample to claim C2 as stated: a single in-range expense of −50
(accepted by the interface) yields an empty breakdown — its FOOD bucket is
−50, not strictly positive, so it is dropped — whose bucket-value sum 0
differs from the included-record sum −50. -/
theorem claim_C2_counterexample :
    get_spending_breakdown allOneRates
        [⟨-50, .FOOD, "stuff", ⟨2024, 1, 15⟩, .INR, false, 0, [], "Cash"⟩]
        .INR none none = .ok [] ∧
    included_sum allOneRates .INR none none 0
        [⟨-50, .FOOD, "stuff", ⟨2024, 1, 15⟩, .INR, false, 0, [], "Cash"⟩]
      = .ok (-50) ∧
    (([] : List (ExpenseCategory × ℚ)).map Prod.snd).sum ≠ (-50 : ℚ) := by
  refine ⟨?_, ?_, ?_⟩
  · norm_num +decide [get_spending_breakdown, breakdown_fold, in_range,
      amount_in, allCategories, List.filterMap_cons_none,
      List.filterMap_cons_some, List.filterMap_nil]
  · norm_num [included_sum, in_range, amount_in]
  · norm_num

/-- Witness for claim C2 at concrete inputs: ledger of 100 INR food (Jan 10)
and 40 INR transport (May 2023), start bound 2024-01-01 excluding the latter;
the breakdown is one positive food bucket of 100. -/
theorem claim_C2_witness :
    (get_spending_breakdown allOneRates
        ([⟨100, .FOOD, "veg", ⟨2024, 1, 10⟩, .INR, false, 0, [], "Cash"⟩,
          ⟨40, .TRANSPORTATION, "bus", ⟨2023, 5, 1⟩, .INR, false, 0, [], "Cash"⟩].filter
            (fun e => in_range (some ⟨2024, 1, 1⟩) none e.date))
        .INR (some ⟨2024, 1, 1⟩) none = .ok [(.FOOD, 100)]) ∧
    (∀ p ∈ [((.FOOD : ExpenseCategory), (100 : ℚ))], 0 < p.2) ∧
    ((∀ e ∈ [(⟨100, .FOOD, "veg", ⟨2024, 1, 10⟩, .INR, false, 0, [], "Cash"⟩ : Expense),
          ⟨40, .TRANSPORTATION, "bus", ⟨2023, 5, 1⟩, .INR, false, 0, [], "Cash"⟩],
        0 ≤ e.amount) →
      (∀ c r, allOneRates c = some r → 0 < r) →
      included_sum allOneRates .INR (some ⟨2024, 1, 1⟩) none 0
          [⟨100, .FOOD, "veg", ⟨2024, 1, 10⟩, .INR, false, 0, [], "Cash"⟩,
           ⟨40, .TRANSPORTATION, "bus", ⟨2023, 5, 1⟩, .INR, false, 0, [], "Cash"⟩]
        = .ok (([((.FOOD : ExpenseCategory), (100 : ℚ))].map Prod.snd).sum)) :=
  claim_C2 allOneRates
    [⟨100, .FOOD, "veg", ⟨2024, 1, 10⟩, .INR, false, 0, [], "Cash"⟩,
     ⟨40, .TRANSPORTATION, "bus", ⟨2023, 5, 1⟩, .INR, false, 0, [], "Cash"⟩]
    .INR (some ⟨2024, 1, 1⟩) none [(.FOOD, 100)]
    (by norm_num +decide [get_spending_breakdown, breakdown_fold, in_range,
      amount_in, allCategories, List.filterMap_cons_none,
      List.filterMap_cons_some, List.filterMap_nil, PyDate.lt])

/-- Linear index of a calendar month. -/
def monthIndex (y m : Nat) : Nat := y * 12 + m

/-- The `# Move to next month` step of the trend loop (source lines
395-399): the first day of the following month. -/
def next_month_first (d : PyDate) : PyDate :=
  if d.month = 12 then ⟨d.year + 1, 1, 1⟩ else ⟨d.year, d.month + 1, 1⟩

/-- The `while current_date <= end_date` loop of
`ReportGenerator.generate_spending_trend` (source lines 390-399), collecting
one `(year, month)` key per iteration.  The loop's month index grows by one
per iteration, so a fuel of `monthIndex end + 1 - monthIndex start` covers
every iteration the source loop performs. -/
def trend_month_loop : Nat → PyDate → PyDate → List (Nat × Nat)
  | 0, _, _ => []
  | fuel + 1, cur, e =>
    if PyDate.le cur e then
      (cur.year, cur.month) :: trend_month_loop fuel (next_month_first cur) e
    else []

/-- The keys of `monthly_data` after the initialisation loop. -/
def month_keys (s e : PyDate) : List (Nat × Nat) :=
  trend_month_loop
    (monthIndex e.year e.month + 1 - monthIndex s.year s.month) s e

/-- The `monthly_data` dict: month key → per-category totals, in insertion
order. -/
abbrev MonthlyData := List ((Nat × Nat) × (ExpenseCategory → ℚ))

/-- `monthly_data` right after the initialisation loop: one all-zero bucket
per month key. -/
def init_monthly_data (s e : PyDate) : MonthlyData :=
  (month_keys s e).map (fun k => (k, fun _ => 0))

/-- `monthly_data[year_month][expense.category] += amount` (source line 408):
bump one category in the bucket of an existing key; a missing key is a Python
`KeyError`. -/
def dict_update (k : Nat × Nat) (cat : ExpenseCategory) (amt : ℚ) :
    MonthlyData → Except PyErr MonthlyData
  | [] => .error (.keyError k.1 k.2)
  | (k', f) :: rest =>
    if k' = k then
      .ok ((k', fun c => if c = cat then f c + amt else f c) :: rest)
    else
      match dict_update k cat amt rest with
      | .error err => .error err
      | .ok rest' => .ok ((k', f) :: rest')

/-- The expense loop of `generate_spending_trend` (source lines 401-408):
skip records outside `[start, end]`, convert the rest and add them to the
bucket of their date's `(year, month)`. -/
def trend_fold (rates : RateTable) (target : Currency) (s e : PyDate) :
    MonthlyData → List Expense → Except PyErr MonthlyData
  | d, [] => .ok d
  | d, x :: rest =>
    if PyDate.lt x.date s || PyDate.lt e x.date then
      trend_fold rates target s e d rest
    else
      match amount_in rates x target with
      | .error err => .error err
      | .ok amt =>
        match dict_update (x.date.year, x.date.month) x.category amt d with
        | .error err => .error err
        | .ok d' => trend_fold rates target s e d' rest

/-- The `monthly_data` table computed by
`ReportGenerator.generate_spending_trend` (source lines 387-408) for an
explicit date range (the claims use an explicit range; the `start`/`end`
defaulting from the ledger extremes is outside this model). -/
def generate_spending_trend (rates : RateTable) (expenses : List Expense)
    (target : Currency) (s e : PyDate) : Except PyErr MonthlyData :=
  trend_fold rates target s e (init_monthly_data s e) expenses

/-- Reference quantity: one category's total converted spend over the
in-range records. -/
def category_range_total (rates : RateTable) (target : Currency)
    (s e : PyDate) (cat : ExpenseCategory) :
    ℚ → List Expense → Except PyErr ℚ
  | t, [] => .ok t
  | t, x :: rest =>
    if PyDate.lt x.date s || PyDate.lt e x.date then
      category_range_total rates target s e cat t rest
    else
      match amount_in rates x target with
      | .error err => .error err
      | .ok amt =>
        category_range_total rates target s e cat
          (t + (if x.category = cat then amt else 0)) rest

/-- Reference quantity: one category's total converted spend over the
in-range records of one `(year, month)` bucket. -/
def month_category_total (rates : RateTable) (target : Currency)
    (s e : PyDate) (k : Nat × Nat) (cat : ExpenseCategory) :
    ℚ → List Expense → Except PyErr ℚ
  | t, [] => .ok t
  | t, x :: rest =>
    if PyDate.lt x.date s || PyDate.lt e x.date then
      month_category_total rates target s e k cat t rest
    else if (x.date.year, x.date.month) = k then
      match amount_in rates x target with
      | .error err => .error err
      | .ok amt =>
        month_category_total rates target s e k cat
          (t + (if x.category = cat then amt else 0)) rest
    else
      month_category_total rates target s e k cat t rest

/-- Lookup of a month key in `monthly_data`. -/
def dict_find (d : MonthlyData) (k : Nat × Nat) :
    Option (ExpenseCategory → ℚ) :=
  (d.find? (fun kv => kv.1 == k)).map Prod.snd

/-- For a first-of-month current date, the loop guard `current <= end` is
exactly a comparison of month indices. -/
theorem day_one_le_iff (cur e : PyDate) (hday : cur.day = 1)
    (h1 : 1 ≤ cur.month) (h2 : cur.month ≤ 12) (he : e.valid) :
    (PyDate.le cur e = true ↔
      monthIndex cur.year cur.month ≤ monthIndex e.year e.month) := by
  obtain ⟨cy, cm, cd⟩ := cur
  obtain ⟨ey, em, ed⟩ := e
  obtain ⟨he1, he2, he3⟩ := he
  simp only [PyDate.le, PyDate.lt, monthIndex, Bool.or_eq_true,
    decide_eq_true_eq, beq_iff_eq, PyDate.mk.injEq] at *
  omega

/-- `a <= b` on valid dates forces the month indices to be ordered. -/
theorem le_monthIndex (a b : PyDate) (ha : a.valid) (hb : b.valid)
    (h : PyDate.le a b = true) :
    monthIndex a.year a.month ≤ monthIndex b.year b.month := by
  obtain ⟨ay, am, ad⟩ := a
  obtain ⟨by', bm, bd⟩ := b
  obtain ⟨ha1, ha2, ha3⟩ := ha
  obtain ⟨hb1, hb2, hb3⟩ := hb
  simp only [PyDate.le, PyDate.lt, monthIndex, Bool.or_eq_true,
    decide_eq_true_eq, beq_iff_eq, PyDate.mk.injEq] at *
  omega

/-- A record inside the `[s, e]` bounds lies in a month between the bound
months. -/
theorem in_range_idx (s e x : PyDate) (hs : s.valid) (he : e.valid)
    (hx : x.valid) (h1 : PyDate.lt x s = false) (h2 : PyDate.lt e x = false) :
    monthIndex s.year s.month ≤ monthIndex x.year x.month ∧
    monthIndex x.year x.month ≤ monthIndex e.year e.month := by
  obtain ⟨sy, sm, sd⟩ := s
  obtain ⟨ey, em, ed⟩ := e
  obtain ⟨xy, xm, xd⟩ := x
  obtain ⟨hs1, hs2, hs3⟩ := hs
  obtain ⟨he1, he2, he3⟩ := he
  obtain ⟨hx1, hx2, hx3⟩ := hx
  simp only [PyDate.lt, monthIndex, decide_eq_false_iff_not] at *
  omega

/-- Stepping to the next month's first day bumps the month index by one. -/
theorem next_month_first_idx (d : PyDate) (h1 : 1 ≤ d.month)
    (h2 : d.month ≤ 12) :
    monthIndex (next_month_first d).year (next_month_first d).month
      = monthIndex d.year d.month + 1 := by
  unfold next_month_first monthIndex
  split
  · rename_i h
    simp
    omega
  · simp
    omega

/-- Stepping to the next month's first day keeps the date well-formed. -/
theorem next_month_first_valid (d : PyDate) (h1 : 1 ≤ d.month)
    (h2 : d.month ≤ 12) :
    (next_month_first d).day = 1 ∧ 1 ≤ (next_month_first d).month ∧
    (next_month_first d).month ≤ 12 := by
  unfold next_month_first
  split
  · simp
  · rename_i h
    simp
    omega

/-- Every key the month loop produces lies at or after the current month. -/
theorem trend_month_loop_lb (e : PyDate) :
    ∀ (fuel : Nat) (cur : PyDate), 1 ≤ cur.month → cur.month ≤ 12 →
    ∀ p ∈ trend_month_loop fuel cur e,
      monthIndex cur.year cur.month ≤ monthIndex p.1 p.2 := by
  intro fuel
  induction fuel with
  | zero =>
    intro cur _ _ p hp
    simp [trend_month_loop] at hp
  | succ n ih =>
    intro cur hm1 hm2 p hp
    unfold trend_month_loop at hp
    split at hp
    · rcases List.mem_cons.mp hp with h | h
      · rw [h]
      · have hv := next_month_first_valid cur hm1 hm2
        have hlb := ih (next_month_first cur) hv.2.1 hv.2.2 p h
        rw [next_month_first_idx cur hm1 hm2] at hlb
        omega
    · simp at hp

/-- The month loop never repeats a key. -/
theorem trend_month_loop_nodup (e : PyDate) :
    ∀ (fuel : Nat) (cur : PyDate), 1 ≤ cur.month → cur.month ≤ 12 →
    (trend_month_loop fuel cur e).Nodup := by
  intro fuel
  induction fuel with
  | zero =>
    intro cur _ _
    simp [trend_month_loop]
  | succ n ih =>
    intro cur hm1 hm2
    unfold trend_month_loop
    split
    · have hv := next_month_first_valid cur hm1 hm2
      refine List.Nodup.cons ?_ (ih (next_month_first cur) hv.2.1 hv.2.2)
      intro hmem
      have hlb := trend_month_loop_lb e n (next_month_first cur) hv.2.1 hv.2.2
        (cur.year, cur.month) hmem
      rw [next_month_first_idx cur hm1 hm2] at hlb
      dsimp only at hlb
      omega
    · simp

/-- Characterisation of the keys the month loop produces, for a
first-of-month current date and sufficient fuel: exactly the well-formed
months with index between the current and the end month. -/
theorem trend_month_loop_mem (e : PyDate) (he : e.valid) :
    ∀ (fuel : Nat) (cur : PyDate), cur.day = 1 → 1 ≤ cur.month →
    cur.month ≤ 12 →
    monthIndex e.year e.month + 1 - monthIndex cur.year cur.month ≤ fuel →
    ∀ y m, ((y, m) ∈ trend_month_loop fuel cur e ↔
      (1 ≤ m ∧ m ≤ 12 ∧
       monthIndex cur.year cur.month ≤ monthIndex y m ∧
       monthIndex y m ≤ monthIndex e.year e.month)) := by
  intro fuel
  induction fuel with
  | zero =>
    intro cur hday h1 h2 hfuel y m
    simp only [trend_month_loop, List.not_mem_nil, false_iff]
    omega
  | succ n ih =>
    intro cur hday h1 h2 hfuel y m
    unfold trend_month_loop
    rcases hle : PyDate.le cur e with _ | _
    · have hgt : ¬ (monthIndex cur.year cur.month ≤
          monthIndex e.year e.month) := by
        intro hc
        have := (day_one_le_iff cur e hday h1 h2 he).mpr hc
        rw [hle] at this
        exact absurd this (by simp)
      simp only [hle, Bool.false_eq_true, if_false, List.not_mem_nil,
        false_iff]
      omega
    · have hcurle : monthIndex cur.year cur.month ≤
          monthIndex e.year e.month :=
        (day_one_le_iff cur e hday h1 h2 he).mp hle
      have hv := next_month_first_valid cur h1 h2
      have hidx := next_month_first_idx cur h1 h2
      simp only [hle, if_true, List.mem_cons]
      rw [ih (next_month_first cur) hv.1 hv.2.1 hv.2.2 (by omega) y m]
      constructor
      · rintro (heq | htail)
        · cases heq
          exact ⟨h1, h2, le_refl _, hcurle⟩
        · obtain ⟨hm1, hm2, hlb, hub⟩ := htail
          rw [hidx] at hlb
          exact ⟨hm1, hm2, by omega, hub⟩
      · rintro ⟨hm1, hm2, hlb, hub⟩
        by_cases hcase : monthIndex y m = monthIndex cur.year cur.month
        · left
          have hym : y = cur.year ∧ m = cur.month := by
            unfold monthIndex at hcase
            constructor <;> omega
          rw [hym.1, hym.2]
        · right
          rw [hidx]
          exact ⟨hm1, hm2, by omega, hub⟩

/-- The keys of the trend table are exactly the months from `s`'s month
through `e`'s month inclusive. -/
theorem month_keys_mem (s e : PyDate) (hs : s.valid) (he : e.valid)
    (hse : PyDate.le s e = true) :
    ∀ y m, ((y, m) ∈ month_keys s e ↔
      (1 ≤ m ∧ m ≤ 12 ∧
       monthIndex s.year s.month ≤ monthIndex y m ∧
       monthIndex y m ≤ monthIndex e.year e.month)) := by
  intro y m
  unfold month_keys
  have hidxle : monthIndex s.year s.month ≤ monthIndex e.year e.month :=
    le_monthIndex s e hs he hse
  obtain ⟨n, hn⟩ : ∃ n, monthIndex e.year e.month + 1
      - monthIndex s.year s.month = n + 1 :=
    ⟨monthIndex e.year e.month - monthIndex s.year s.month, by omega⟩
  rw [hn]
  unfold trend_month_loop
  have hv := next_month_first_valid s hs.1 hs.2.1
  have hidx := next_month_first_idx s hs.1 hs.2.1
  simp only [hse, if_true, List.mem_cons]
  rw [trend_month_loop_mem e he n (next_month_first s) hv.1 hv.2.1 hv.2.2
    (by omega) y m]
  constructor
  · rintro (heq | htail)
    · cases heq
      exact ⟨hs.1, hs.2.1, le_refl _, hidxle⟩
    · obtain ⟨hm1, hm2, hlb, hub⟩ := htail
      rw [hidx] at hlb
      exact ⟨hm1, hm2, by omega, hub⟩
  · rintro ⟨hm1, hm2, hlb, hub⟩
    by_cases hcase : monthIndex y m = monthIndex s.year s.month
    · left
      have hym : y = s.year ∧ m = s.month := by
        unfold monthIndex at hcase
        have := hs.1
        have := hs.2.1
        constructor <;> omega
      rw [hym.1, hym.2]
    · right
      rw [hidx]
      exact ⟨hm1, hm2, by omega, hub⟩

/-- The month-key list has no duplicates. -/
theorem month_keys_nodup (s e : PyDate) (hs1 : 1 ≤ s.month)
    (hs2 : s.month ≤ 12) : (month_keys s e).Nodup :=
  trend_month_loop_nodup e _ s hs1 hs2

/-- Looking up a key in the freshly initialised table. -/
theorem dict_find_map_zero (l : List (Nat × Nat)) (k : Nat × Nat) :
    dict_find (l.map (fun k' => (k', fun _ => (0:ℚ)))) k
      = if k ∈ l then some (fun _ => 0) else none := by
  induction l with
  | nil => simp [dict_find]
  | cons a t ih =>
    by_cases hk : a = k
    · subst hk
      simp [dict_find, List.find?_cons_of_pos]
    · rw [List.map_cons]
      unfold dict_find
      rw [List.find?_cons_of_neg _ (by simp [hk])]
      unfold dict_find at ih
      rw [ih]
      have hka : ¬ (k = a) := fun h => hk h.symm
      simp [hka]

/-- A key is findable iff it occurs in the key list. -/
theorem dict_find_none_iff (d : MonthlyData) (k : Nat × Nat) :
    dict_find d k = none ↔ k ∉ d.map Prod.fst := by
  induction d with
  | nil => simp [dict_find]
  | cons kv rest ih =>
    obtain ⟨k0, f⟩ := kv
    by_cases hk : k0 = k
    · subst hk
      simp [dict_find, List.find?_cons_of_pos]
    · unfold dict_find
      rw [List.find?_cons_of_neg _ (by simp [hk])]
      unfold dict_find at ih
      rw [ih]
      have : ¬ (k = k0) := fun h => hk h.symm
      simp [this]

/-- `dict_update` bumps the looked-up bucket at its key and leaves every
other key's bucket unchanged. -/
theorem dict_update_find (k : Nat × Nat) (cat : ExpenseCategory) (amt : ℚ) :
    ∀ (d d' : MonthlyData), dict_update k cat amt d = .ok d' →
    ∀ k', dict_find d' k' =
      if k' = k then
        (dict_find d k').map
          (fun f => (fun c => if c = cat then f c + amt else f c))
      else dict_find d k' := by
  intro d
  induction d with
  | nil =>
    intro d' h
    simp [dict_update] at h
  | cons kv rest ih =>
    intro d' h k'
    obtain ⟨k0, f⟩ := kv
    unfold dict_update at h
    by_cases hk : k0 = k
    · rw [if_pos hk] at h
      cases h
      by_cases hk' : k' = k0
      · have hkk : k' = k := by rw [hk', hk]
        unfold dict_find
        rw [List.find?_cons_of_pos _ (by simp [hk'.symm]),
          List.find?_cons_of_pos _ (by simp [hk'.symm]), if_pos hkk]
        rfl
      · have hkk : ¬ (k' = k) := by
          rw [← hk]
          exact hk'
        unfold dict_find
        rw [List.find?_cons_of_neg _ (by simp; exact fun hcon => hk' hcon.symm),
          List.find?_cons_of_neg _ (by simp; exact fun hcon => hk' hcon.symm),
          if_neg hkk]
    · rw [if_neg hk] at h
      cases hrec : dict_update k cat amt rest with
      | error err =>
        rw [hrec] at h
        exact absurd h (by simp)
      | ok rest' =>
        rw [hrec] at h
        dsimp only at h
        cases h
        have hrest := ih rest' hrec
        by_cases hk' : k' = k0
        · have hne : ¬ (k' = k) := by
            rw [hk']
            exact hk
          unfold dict_find
          rw [List.find?_cons_of_pos _ (by simp [hk'.symm]),
            List.find?_cons_of_pos _ (by simp [hk'.symm]), if_neg hne]
        · unfold dict_find
          rw [List.find?_cons_of_neg _ (by simp; exact fun hcon => hk' hcon.symm),
            List.find?_cons_of_neg _ (by simp; exact fun hcon => hk' hcon.symm)]
          exact hrest k'

/-- `dict_update` succeeds when the key is present. -/
theorem dict_update_ok_of_find (k : Nat × Nat) (cat : ExpenseCategory)
    (amt : ℚ) :
    ∀ (d : MonthlyData) (f : ExpenseCategory → ℚ), dict_find d k = some f →
    ∃ d', dict_update k cat amt d = .ok d' := by
  intro d
  induction d with
  | nil =>
    intro f hf
    simp [dict_find] at hf
  | cons kv rest ih =>
    intro f hf
    obtain ⟨k0, f0⟩ := kv
    by_cases hk : k0 = k
    · exact ⟨_, by unfold dict_update; rw [if_pos hk]⟩
    · unfold dict_find at hf
      rw [List.find?_cons_of_neg _ (by simp [hk])] at hf
      obtain ⟨rest', hrest⟩ := ih f hf
      refine ⟨(k0, f0) :: rest', ?_⟩
      unfold dict_update
      rw [if_neg hk, hrest]

/-- `dict_update` preserves the key list. -/
theorem dict_update_keys (k : Nat × Nat) (cat : ExpenseCategory) (amt : ℚ) :
    ∀ (d d' : MonthlyData), dict_update k cat amt d = .ok d' →
    d'.map Prod.fst = d.map Prod.fst := by
  intro d
  induction d with
  | nil =>
    intro d' h
    simp [dict_update] at h
  | cons kv rest ih =>
    intro d' h
    obtain ⟨k0, f⟩ := kv
    unfold dict_update at h
    by_cases hk : k0 = k
    · rw [if_pos hk] at h
      cases h
      rfl
    · rw [if_neg hk] at h
      cases hrec : dict_update k cat amt rest with
      | error err =>
        rw [hrec] at h
        exact absurd h (by simp)
      | ok rest' =>
        rw [hrec] at h
        dsimp only at h
        cases h
        simp [ih rest' hrec]

/-- `dict_update` adds the amount to one column total. -/
theorem dict_update_colsum (k : Nat × Nat) (cat : ExpenseCategory) (amt : ℚ) :
    ∀ (d d' : MonthlyData), dict_update k cat amt d = .ok d' →
    ∀ c, (d'.map (fun kv => kv.2 c)).sum
      = (d.map (fun kv => kv.2 c)).sum + (if c = cat then amt else 0) := by
  intro d
  induction d with
  | nil =>
    intro d' h
    simp [dict_update] at h
  | cons kv rest ih =>
    intro d' h c
    obtain ⟨k0, f⟩ := kv
    unfold dict_update at h
    by_cases hk : k0 = k
    · rw [if_pos hk] at h
      cases h
      by_cases hc : c = cat
      · simp only [List.map_cons, List.sum_cons, if_pos hc]
        ring
      · simp only [List.map_cons, List.sum_cons, if_neg hc]
        ring
    · rw [if_neg hk] at h
      cases hrec : dict_update k cat amt rest with
      | error err =>
        rw [hrec] at h
        exact absurd h (by simp)
      | ok rest' =>
        rw [hrec] at h
        dsimp only at h
        cases h
        simp only [List.map_cons, List.sum_cons, ih rest' hrec c]
        ring

/-- A constant-zero map sums to zero. -/
theorem sum_map_const_zero {α : Type} (l : List α) :
    (l.map (fun _ => (0:ℚ))).sum = 0 := by
  induction l with
  | nil => simp
  | cons a t ih => simpa using ih

/-- The freshly initialised table has the month keys as key list. -/
theorem init_keys (s e : PyDate) :
    (init_monthly_data s e).map Prod.fst = month_keys s e := by
  unfold init_monthly_data
  rw [List.map_map]
  have hcomp : (Prod.fst ∘ fun k : Nat × Nat =>
      (k, fun _ : ExpenseCategory => (0:ℚ))) = id := by
    funext k
    rfl
  rw [hcomp, List.map_id]

/-- Every column of the freshly initialised table sums to zero. -/
theorem init_colsum (s e : PyDate) (c : ExpenseCategory) :
    ((init_monthly_data s e).map (fun kv => kv.2 c)).sum = 0 := by
  unfold init_monthly_data
  generalize month_keys s e = l
  induction l with
  | nil => simp
  | cons a t ih => simpa using ih

/-- The expense loop never changes the key list. -/
theorem trend_fold_keys (rates : RateTable) (target : Currency)
    (s e : PyDate) :
    ∀ (exps : List Expense) (d d' : MonthlyData),
    trend_fold rates target s e d exps = .ok d' →
    d'.map Prod.fst = d.map Prod.fst := by
  intro exps
  induction exps with
  | nil =>
    intro d d' h
    simp [trend_fold] at h
    rw [h]
  | cons x rest ih =>
    intro d d' h
    unfold trend_fold at h
    rcases hg : (PyDate.lt x.date s || PyDate.lt e x.date) with _ | _
    · rw [hg] at h
      simp only [Bool.false_eq_true, if_false] at h
      cases hconv : amount_in rates x target with
      | error err =>
        rw [hconv] at h
        exact absurd h (by simp)
      | ok amt =>
        rw [hconv] at h
        dsimp only at h
        cases hupd : dict_update (x.date.year, x.date.month) x.category amt d with
        | error err =>
          rw [hupd] at h
          exact absurd h (by simp)
        | ok d₁ =>
          rw [hupd] at h
          dsimp only at h
          rw [ih d₁ d' h, dict_update_keys _ _ _ d d₁ hupd]
    · rw [hg] at h
      simp only [if_true] at h
      exact ih d d' h

/-- The expense loop relates each column total to that category's range
total. -/
theorem trend_fold_colsum (rates : RateTable) (target : Currency)
    (s e : PyDate) :
    ∀ (exps : List Expense) (d d' : MonthlyData) (c : ExpenseCategory)
      (t : ℚ),
    trend_fold rates target s e d exps = .ok d' →
    category_range_total rates target s e c t exps
      = .ok (t + ((d'.map (fun kv => kv.2 c)).sum
          - (d.map (fun kv => kv.2 c)).sum)) := by
  intro exps
  induction exps with
  | nil =>
    intro d d' c t h
    simp [trend_fold] at h
    rw [h]
    simp [category_range_total]
  | cons x rest ih =>
    intro d d' c t h
    unfold trend_fold at h
    unfold category_range_total
    rcases hg : (PyDate.lt x.date s || PyDate.lt e x.date) with _ | _
    · rw [hg] at h
      simp only [Bool.false_eq_true, if_false] at h ⊢
      cases hconv : amount_in rates x target with
      | error err =>
        rw [hconv] at h
        exact absurd h (by simp)
      | ok amt =>
        rw [hconv] at h
        dsimp only at h ⊢
        cases hupd : dict_update (x.date.year, x.date.month) x.category amt d with
        | error err =>
          rw [hupd] at h
          exact absurd h (by simp)
        | ok d₁ =>
          rw [hupd] at h
          dsimp only at h
          have hupd_sum := dict_update_colsum _ _ _ d d₁ hupd c
          rw [ih d₁ d' c (t + (if x.category = c then amt else 0)) h, hupd_sum]
          have hite : (if x.category = c then amt else 0)
              = (if c = x.category then amt else 0) := by
            by_cases hc : x.category = c
            · rw [if_pos hc, if_pos hc.symm]
            · rw [if_neg hc, if_neg (fun h' => hc h'.symm)]
          rw [hite]
          congr 1
          ring
    · rw [hg] at h
      simp only [if_true] at h ⊢
      exact ih d d' c t h

/-- The expense loop, bucket by bucket: each key's bucket grows by exactly
that month's per-category totals. -/
theorem trend_fold_find (rates : RateTable) (target : Currency)
    (s e : PyDate) :
    ∀ (exps : List Expense) (d d' : MonthlyData),
    trend_fold rates target s e d exps = .ok d' →
    ∀ k f, dict_find d k = some f →
    ∃ f', dict_find d' k = some f' ∧
      ∀ c t, month_category_total rates target s e k c t exps
        = .ok (t + (f' c - f c)) := by
  intro exps
  induction exps with
  | nil =>
    intro d d' h k f hf
    simp [trend_fold] at h
    refine ⟨f, by rw [← h]; exact hf, ?_⟩
    intro c t
    simp [month_category_total]
  | cons x rest ih =>
    intro d d' h k f hf
    unfold trend_fold at h
    rcases hg : (PyDate.lt x.date s || PyDate.lt e x.date) with _ | _
    · rw [hg] at h
      simp only [Bool.false_eq_true, if_false] at h
      cases hconv : amount_in rates x target with
      | error err =>
        rw [hconv] at h
        exact absurd h (by simp)
      | ok amt =>
        rw [hconv] at h
        dsimp only at h
        cases hupd : dict_update (x.date.year, x.date.month) x.category amt d with
        | error err =>
          rw [hupd] at h
          exact absurd h (by simp)
        | ok d₁ =>
          rw [hupd] at h
          dsimp only at h
          have hfind := dict_update_find _ _ _ d d₁ hupd
          by_cases hk : k = (x.date.year, x.date.month)
          · have hfd₁ : dict_find d₁ k
                = some (fun c => if c = x.category then f c + amt else f c) := by
              rw [hfind k, if_pos hk, hf]
              rfl
            obtain ⟨f', hf', hmct⟩ := ih d₁ d' h k _ hfd₁
            refine ⟨f', hf', ?_⟩
            intro c t
            unfold month_category_total
            rw [hg]
            simp only [Bool.false_eq_true, if_false]
            rw [if_pos hk.symm, hconv]
            dsimp only
            rw [hmct c (t + (if x.category = c then amt else 0))]
            congr 1
            by_cases hc : c = x.category
            · rw [if_pos hc.symm, if_pos hc]
              ring
            · rw [if_neg (fun h' => hc h'.symm), if_neg hc]
              ring
          · have hfd₁ : dict_find d₁ k = some f := by
              rw [hfind k, if_neg hk, hf]
            obtain ⟨f', hf', hmct⟩ := ih d₁ d' h k f hfd₁
            refine ⟨f', hf', ?_⟩
            intro c t
            unfold month_category_total
            rw [hg]
            simp only [Bool.false_eq_true, if_false]
            rw [if_neg (fun h' => hk h'.symm)]
            exact hmct c t
    · rw [hg] at h
      simp only [if_true] at h
      obtain ⟨f', hf', hmct⟩ := ih d d' h k f hf
      refine ⟨f', hf', ?_⟩
      intro c t
      unfold month_category_total
      rw [hg]
      simp only [if_true]
      exact hmct c t

/-- The expense loop succeeds when every in-range record converts and has its
month key in the table. -/
theorem trend_fold_ok (rates : RateTable) (target : Currency) (s e : PyDate) :
    ∀ (exps : List Expense) (d : MonthlyData),
    (∀ x ∈ exps, (PyDate.lt x.date s || PyDate.lt e x.date) = false →
      (∃ a, amount_in rates x target = .ok a)) →
    (∀ x ∈ exps, (PyDate.lt x.date s || PyDate.lt e x.date) = false →
      dict_find d (x.date.year, x.date.month) ≠ none) →
    ∃ d', trend_fold rates target s e d exps = .ok d' := by
  intro exps
  induction exps with
  | nil =>
    intro d _ _
    exact ⟨d, rfl⟩
  | cons x rest ih =>
    intro d hconv hkeys
    unfold trend_fold
    rcases hg : (PyDate.lt x.date s || PyDate.lt e x.date) with _ | _
    · obtain ⟨amt, hamt⟩ := hconv x (by simp) hg
      have hkey := hkeys x (by simp) hg
      obtain ⟨f, hf⟩ : ∃ f, dict_find d (x.date.year, x.date.month) = some f := by
        cases hfd : dict_find d (x.date.year, x.date.month) with
        | none => exact absurd hfd hkey
        | some f => exact ⟨f, rfl⟩
      obtain ⟨d₁, hd₁⟩ :=
        dict_update_ok_of_find (x.date.year, x.date.month) x.category amt d f hf
      have hkeys₁ : ∀ x' ∈ rest,
          (PyDate.lt x'.date s || PyDate.lt e x'.date) = false →
          dict_find d₁ (x'.date.year, x'.date.month) ≠ none := by
        intro x' hx' hg'
        have hfind := dict_update_find _ _ _ d d₁ hd₁
          (x'.date.year, x'.date.month)
        by_cases hk : (x'.date.year, x'.date.month)
            = (x.date.year, x.date.month)
        · rw [hfind, if_pos hk, hk, hf]
          simp
        · rw [hfind, if_neg hk]
          exact hkeys x' (by simp [hx']) hg'
      obtain ⟨d', hd'⟩ :=
        ih d₁ (fun x' hx' hg' => hconv x' (by simp [hx']) hg') hkeys₁
      refine ⟨d', ?_⟩
      simp only [Bool.false_eq_true, if_false]
      rw [hamt]
      dsimp only
      rw [hd₁]
      dsimp only
      exact hd'
    · simp only [if_true]
      exact ih d (fun x' hx' hg' => hconv x' (by simp [hx']) hg')
        (fun x' hx' hg' => hkeys x' (by simp [hx']) hg')

/-- Claim C7: for a valid explicit range `s ≤ e`, the trend table construction
succeeds whenever every in-range record's conversion succeeds (no `KeyError`
is possible: every in-range record's month key exists), and the resulting
table has exactly one bucket per calendar month from `s`'s (year, month)
through `e`'s inclusive — months with no expenses keeping their empty
bucket — each bucket holding, per category, exactly that month's in-range
converted total, so that each category's sum across all buckets equals that
category's total converted spend over the range. -/
theorem claim_C7 (rates : RateTable) (expenses : List Expense)
    (target : Currency) (s e : PyDate)
    (hs : s.valid) (he : e.valid) (hse : PyDate.le s e = true)
    (hexp : ∀ x ∈ expenses, x.date.valid) :
    ((∀ x ∈ expenses,
        (PyDate.lt x.date s || PyDate.lt e x.date) = false →
        ∃ a, amount_in rates x target = .ok a) →
      ∃ d, generate_spending_trend rates expenses target s e = .ok d) ∧
    (∀ d, generate_spending_trend rates expenses target s e = .ok d →
      ((d.map Prod.fst).Nodup ∧
       (∀ y m, ((y, m) ∈ d.map Prod.fst ↔
          (1 ≤ m ∧ m ≤ 12 ∧
           monthIndex s.year s.month ≤ monthIndex y m ∧
           monthIndex y m ≤ monthIndex e.year e.month))) ∧
       (∀ c, category_range_total rates target s e c 0 expenses
          = .ok ((d.map (fun kv => kv.2 c)).sum)) ∧
       (∀ y m f, dict_find d (y, m) = some f →
          ∀ c, month_category_total rates target s e (y, m) c 0 expenses
            = .ok (f c)))) := by
  constructor
  · intro hconv
    unfold generate_spending_trend
    apply trend_fold_ok rates target s e expenses (init_monthly_data s e) hconv
    intro x hx hg
    have hg2 : PyDate.lt x.date s = false ∧ PyDate.lt e x.date = false := by
      rcases h1 : PyDate.lt x.date s with _ | _ <;>
        rcases h2 : PyDate.lt e x.date with _ | _ <;>
        rw [h1, h2] at hg <;> simp_all
    have hxv := hexp x hx
    have hbounds := in_range_idx s e x.date hs he hxv hg2.1 hg2.2
    unfold init_monthly_data
    rw [dict_find_map_zero, if_pos
      ((month_keys_mem s e hs he hse x.date.year x.date.month).mpr
        ⟨hxv.1, hxv.2.1, hbounds.1, hbounds.2⟩)]
    simp
  · intro d hd
    unfold generate_spending_trend at hd
    have hkeys : d.map Prod.fst = month_keys s e := by
      rw [trend_fold_keys rates target s e expenses _ d hd, init_keys]
    refine ⟨?_, ?_, ?_, ?_⟩
    · rw [hkeys]
      exact month_keys_nodup s e hs.1 hs.2.1
    · intro y m
      rw [hkeys]
      exact month_keys_mem s e hs he hse y m
    · intro c
      rw [trend_fold_colsum rates target s e expenses _ d c 0 hd,
        init_colsum]
      congr 1
      ring
    · intro y m f hf c
      have hmem : (y, m) ∈ month_keys s e := by
        rw [← hkeys]
        by_contra hcon
        have := (dict_find_none_iff d (y, m)).mpr hcon
        rw [hf] at this
        exact absurd this (by simp)
      have hinit : dict_find (init_monthly_data s e) (y, m)
          = some (fun _ => 0) := by
        unfold init_monthly_data
        rw [dict_find_map_zero, if_pos hmem]
      obtain ⟨f', hf', hmct⟩ :=
        trend_fold_find rates target s e expenses _ d hd (y, m) _ hinit
      have hff : f' = f := by
        rw [hf] at hf'
        exact (Option.some.inj hf').symm
      have hrun := hmct c 0
      rw [hff] at hrun
      rw [hrun]
      congr 1
      simp

/-- Witness for claim C7: range Nov 2024 (day 5) to Feb 2025 (day 20), one
in-range food expense in Dec 2024 and one out-of-range travel expense in
2023. -/
theorem claim_C7_witness :
    ((∀ x ∈ [(⟨100, .FOOD, "veg", ⟨2024, 12, 3⟩, .INR, false, 0, [], "Cash"⟩ : Expense),
          ⟨30, .TRAVEL, "trip", ⟨2023, 7, 1⟩, .INR, false, 0, [], "Cash"⟩],
        (PyDate.lt x.date ⟨2024, 11, 5⟩ || PyDate.lt ⟨2025, 2, 20⟩ x.date) = false →
        ∃ a, amount_in allOneRates x .INR = .ok a) →
      ∃ d, generate_spending_trend allOneRates
        [⟨100, .FOOD, "veg", ⟨2024, 12, 3⟩, .INR, false, 0, [], "Cash"⟩,
         ⟨30, .TRAVEL, "trip", ⟨2023, 7, 1⟩, .INR, false, 0, [], "Cash"⟩]
        .INR ⟨2024, 11, 5⟩ ⟨2025, 2, 20⟩ = .ok d) ∧
    (∀ d, generate_spending_trend allOneRates
        [⟨100, .FOOD, "veg", ⟨2024, 12, 3⟩, .INR, false, 0, [], "Cash"⟩,
         ⟨30, .TRAVEL, "trip", ⟨2023, 7, 1⟩, .INR, false, 0, [], "Cash"⟩]
        .INR ⟨2024, 11, 5⟩ ⟨2025, 2, 20⟩ = .ok d →
      ((d.map Prod.fst).Nodup ∧
       (∀ y m, ((y, m) ∈ d.map Prod.fst ↔
          (1 ≤ m ∧ m ≤ 12 ∧
           monthIndex (2024 : Nat) 11 ≤ monthIndex y m ∧
           monthIndex y m ≤ monthIndex (2025 : Nat) 2))) ∧
       (∀ c, category_range_total allOneRates .INR ⟨2024, 11, 5⟩ ⟨2025, 2, 20⟩ c 0
          [⟨100, .FOOD, "veg", ⟨2024, 12, 3⟩, .INR, false, 0, [], "Cash"⟩,
           ⟨30, .TRAVEL, "trip", ⟨2023, 7, 1⟩, .INR, false, 0, [], "Cash"⟩]
          = .ok ((d.map (fun kv => kv.2 c)).sum)) ∧
       (∀ y m f, dict_find d (y, m) = some f →
          ∀ c, month_category_total allOneRates .INR ⟨2024, 11, 5⟩ ⟨2025, 2, 20⟩
              (y, m) c 0
              [⟨100, .FOOD, "veg", ⟨2024, 12, 3⟩, .INR, false, 0, [], "Cash"⟩,
               ⟨30, .TRAVEL, "trip", ⟨2023, 7, 1⟩, .INR, false, 0, [], "Cash"⟩]
            = .ok (f c)))) :=
  claim_C7 allOneRates
    [⟨100, .FOOD, "veg", ⟨2024, 12, 3⟩, .INR, false, 0, [], "Cash"⟩,
     ⟨30, .TRAVEL, "trip", ⟨2023, 7, 1⟩, .INR, false, 0, [], "Cash"⟩]
    .INR ⟨2024, 11, 5⟩ ⟨2025, 2, 20⟩ (by decide) (by decide) (by decide)
    (by decide)
